import Mathlib

/-!
Shallow embedding of the Shor's-algorithm implementation
(`src/shors-algorithm-implementation.py`).

A quantum circuit is modelled as an ordered list of gate records over
qubit indices (Qiskit convention: qubit `i` is the `i`-th binary digit,
least significant first).  The quantum execution backend is an external
collaborator: it is modelled by passing the measured histogram (a list of
bitstring/count pairs, in the dictionary's insertion order) as an input to
the classical post-processing functions.  Python's `random.randint` call in
`shor_algorithm` is modelled by passing the chosen base `a` as an argument.
-/

namespace Shors

/-- Gate vocabulary of the circuits built by the source: Hadamard, Pauli-X,
swap, controlled phase (`cp k ctrl tgt` is the rotation by angle `-π / 2^k`
with the given control and target), a controlled oracle block
(`c_amod15(a, power).control()` applied with one control qubit and a list of
target qubits), measurement of a qubit into a classical bit, and reset
(available in the circuit API, never emitted by this program). -/
inductive Gate
  | h (q : ℕ)
  | x (q : ℕ)
  | swap (p q : ℕ)
  | cp (k ctrl tgt : ℕ)
  | cU (a power ctrl : ℕ) (targets : List ℕ)
  | measure (q c : ℕ)
  | reset (q : ℕ)
  deriving DecidableEq, Repr

/-- The list of admissible oracle bases, from `c_amod15`'s guard:
`[2, 4, 7, 8, 11, 13]`. -/
def validBases : List ℕ := [2, 4, 7, 8, 11, 13]

/-- Gate list built by the loop body of `c_amod15` (lines 18–32 of the
source): for each of `power` iterations, the swap pattern selected by the
base, then a bitwise complement (`X` on all four qubits) for
`a ∈ {7, 11, 13}`. -/
def amod15Gates (a power : ℕ) : List Gate :=
  (List.range power).foldl
    (fun U _ =>
      let U := if a ∈ [2, 13] then U ++ [.swap 0 1, .swap 1 2, .swap 2 3] else U
      let U := if a ∈ [7, 8] then U ++ [.swap 2 3, .swap 1 2, .swap 0 1] else U
      let U := if a ∈ [4, 11] then U ++ [.swap 1 3, .swap 0 2] else U
      let U := if a ∈ [7, 11, 13] then U ++ ((List.range 4).map Gate.x) else U
      U)
    []

/-- Model of `c_amod15(a, power)` (source lines 11–34): raises `ValueError` unless
`a ∈ {2, 4, 7, 8, 11, 13}`, otherwise returns the 4-qubit circuit built by
`amod15Gates`.  The raise is modelled as `Except.error` with the source's
message (quotation marks dropped). -/
def c_amod15 (a power : ℕ) : Except String (List Gate) :=
  if a ∉ validBases then .error "a must be 2, 4, 7, 8, 11 or 13"
  else .ok (amod15Gates a power)

/-- Action of one gate on a computational-basis state, encoded as the
natural number whose binary digit `i` is the value of qubit `i`.
`swap` exchanges two binary digits and `x` flips one; `cp` is diagonal, so
it fixes every basis state (up to a global phase irrelevant here); the
remaining gate kinds never occur in the oracle circuits this semantics is
applied to. -/
def applyGate (s : ℕ) : Gate → ℕ
  | .swap i j => if s.testBit i = s.testBit j then s else (s ^^^ 2 ^ i) ^^^ 2 ^ j
  | .x q => s ^^^ 2 ^ q
  | _ => s

/-- Action of a gate list on a basis state, first gate first. -/
def applyGates (gs : List Gate) (s : ℕ) : ℕ :=
  gs.foldl applyGate s

/-- Model of `qft_dagger(n)` (source lines 36–47): the inverse quantum Fourier
transform circuit.  First the swap network reversing qubit order, then for
each qubit `j` ascending the controlled-phase rotations `cp(-π/2^(j-m), m, j)`
for `m < j` ascending, followed by a Hadamard on `j`.  The imperative
`qc.<gate>(...)` calls are modelled by folds that append one gate record per
call. -/
def qftDagger (n : ℕ) : List Gate :=
  let qc := (List.range (n / 2)).foldl (fun g q => g ++ [Gate.swap q (n - q - 1)]) []
  (List.range n).foldl
    (fun g j =>
      ((List.range j).foldl (fun g m => g ++ [Gate.cp (j - m) m j]) g) ++ [Gate.h j])
    qc

/-- The gate sequence described by the specification of the inverse
transform: swaps of qubit `i` with qubit `n−1−i` for every `i < n/2`, then
for each qubit `j` ascending from 0, controlled-phase rotations of angle
`−π/2^(j−m)` with control `m` and target `j` for every `m < j` with `m`
ascending, followed by a Hadamard on qubit `j`. -/
def qftDaggerSpec (n : ℕ) : List Gate :=
  ((List.range (n / 2)).map fun i => Gate.swap i (n - 1 - i))
    ++ (List.range n).flatMap fun j =>
        ((List.range j).map fun m => Gate.cp (j - m) m j) ++ [Gate.h j]

/-- One step of the controlled-oracle loop of `create_shors_circuit`
(source lines 62–65): on iteration `q` the circuit
`c_amod15(a, 2^(c-q-1)).control()` is appended with control qubit `q` and
the four work-register qubits `c, c+1, c+2, c+3` as targets.  The
`ValueError` that `c_amod15` raises for an invalid base aborts the
construction, which the `Except` bind models. -/
def applyControlledU (a c : ℕ) (acc : Except String (List Gate)) (q : ℕ) :
    Except String (List Gate) :=
  acc.bind fun g =>
    (c_amod15 a (2 ^ (c - q - 1))).map fun _ =>
      g ++ [Gate.cU a (2 ^ (c - q - 1)) q [c, c + 1, c + 2, c + 3]]

/-- Model of `create_shors_circuit(a, n, counting_qubits)` (source lines 49–73):
Hadamard on every counting qubit, `X` on the first work qubit (initialising
the work register to `|1⟩`), the controlled oracle applications, the inverse
transform on the counting register, and measurement of every counting qubit
into the matching classical bit.  The parameter `n` is unused by the source
body (the work register is hard-sized to 4 qubits for modulus 15). -/
def createShorsCircuit (a n c : ℕ) : Except String (List Gate) :=
  let qc := (List.range c).foldl (fun g q => g ++ [Gate.h q]) []
  let qc := qc ++ [Gate.x c]
  ((List.range c).foldl (applyControlledU a c) (.ok qc)).map fun g =>
    (List.range c).foldl (fun g q => g ++ [Gate.measure q q]) (g ++ qftDagger c)

/-- Recogniser for controlled-oracle blocks. -/
def isCU : Gate → Bool
  | .cU _ _ _ _ => true
  | _ => false

/-- Recogniser for measurement operations. -/
def isMeasure : Gate → Bool
  | .measure _ _ => true
  | _ => false

/-- Recogniser for reset operations. -/
def isReset : Gate → Bool
  | .reset _ => true
  | _ => false

/-- The gate list of a successfully constructed circuit (empty list on a
construction error). -/
def gatesOf (e : Except String (List Gate)) : List Gate :=
  match e with
  | .ok g => g
  | .error _ => []

/-- Value `int(output, 2)` of a measured bitstring, most significant bit
first (the order in which Qiskit renders counting-register readouts as
dictionary keys). -/
def bitsToNat (bs : List Bool) : ℕ :=
  bs.foldl (fun acc b => 2 * acc + (if b then 1 else 0)) 0

/-- Insertion step of a stable descending sort on the second (count)
component: an element moves left past exactly the entries with a strictly
smaller count, so equal counts keep their original relative order — the
behaviour of Python's stable `list.sort(key=lambda x: x[1], reverse=True)`
on source line 93. -/
def insertDesc {α : Type} (x : α × ℕ) : List (α × ℕ) → List (α × ℕ)
  | [] => [x]
  | y :: ys => if y.2 ≤ x.2 then x :: y :: ys else y :: insertDesc x ys

/-- Stable sort by descending count (see `insertDesc`). -/
def sortDesc {α : Type} : List (α × ℕ) → List (α × ℕ)
  | [] => []
  | x :: xs => insertDesc x (sortDesc xs)

/-- The convergent loop of CPython's `Fraction.limit_denominator`: starting
from `p0/q0 = 0/1`, `p1/q1 = 1/0` and the fraction `n/d` in lowest terms, it
advances along the continued-fraction expansion until the next denominator
`q0 + (n/d)·q1` would exceed `max_denominator`, returning the last two
convergents.  The `while True` loop is driven by an explicit fuel counter;
`d` strictly decreases each iteration, so fuel `d` (the initial denominator)
is never exhausted, and the loop in fact stops at the size bound before `d`
reaches 0 because the final convergent's denominator exceeds
`max_denominator`. -/
def cfLoop (maxDen : ℕ) : ℕ → ℕ → ℕ → ℕ → ℕ → ℕ → ℕ → ℕ × ℕ × ℕ × ℕ
  | 0, p0, q0, p1, q1, _, _ => (p0, q0, p1, q1)
  | fuel + 1, p0, q0, p1, q1, n, d =>
    if d = 0 then (p0, q0, p1, q1)
    else
      let a := n / d
      if maxDen < q0 + a * q1 then (p0, q0, p1, q1)
      else cfLoop maxDen fuel p1 q1 (p0 + a * p1) (q0 + a * q1) d (n % d)

/-- Model of `Fraction(num/den).limit_denominator(maxDen)` for a non-negative
fraction, returned as a numerator/denominator pair in lowest terms.  The
input is first reduced (`Fraction` normalises on construction); if its
denominator is within the bound it is returned as is, otherwise the closest
of the last convergent `p1/q1` and the best semiconvergent
`(p0+k·p1)/(q0+k·q1)` is returned, the convergent winning ties.  CPython's
comparison `abs(bound2 - self) <= abs(bound1 - self)` is written in
cross-multiplied integer form (all denominators involved are positive in
this branch).  Convergents and semiconvergents are automatically in lowest
terms, matching `Fraction`'s normalised result. -/
def limitDenominator (num den maxDen : ℕ) : ℕ × ℕ :=
  let g := Nat.gcd num den
  let n := num / g
  let d := den / g
  if d ≤ maxDen then (n, d)
  else
    let r := cfLoop maxDen d 0 1 1 0 n d
    let p0 := r.1
    let q0 := r.2.1
    let p1 := r.2.2.1
    let q1 := r.2.2.2
    let k := (maxDen - q0) / q1
    if ((p1 : ℤ) * d - n * q1).natAbs * ((q0 + k * q1) * d) ≤
        (((p0 + k * p1 : ℕ) : ℤ) * d - (n : ℤ) * (q0 + k * q1)).natAbs * (q1 * d) then
      (p1, q1)
    else (p0 + k * p1, q0 + k * q1)

/-- The candidate loop of `find_period` (source lines 96–102): walk the
ranked phases, take the denominator of the best rational approximation of
each phase with denominator bounded by `n` as the period candidate `r`, and
return the first `r` that is even, has `a^(r/2) mod n ≠ n − 1` and satisfies
`a^r mod n = 1`.  Each phase is carried as a numerator/denominator pair. -/
def tryPhases (a n : ℕ) : List ((ℕ × ℕ) × ℕ) → Option ℕ
  | [] => none
  | pc :: rest =>
    let r := (limitDenominator pc.1.1 pc.1.2 n).2
    if r % 2 == 0 && a ^ (r / 2) % n != n - 1 && a ^ r % n == 1 then some r
    else tryPhases a n rest

/-- The classical post-processing of `find_period` (source lines 85–104):
convert each measured bitstring to the phase `int(output, 2) / 2^c` (exact
for the register sizes in use, where the float quotient is exactly
representable), sort the phase/count pairs by descending count (stable), and
scan the top 5 for a valid period.  The histogram produced by the external
backend is an input. -/
def findPeriod (a n c : ℕ) (counts : List (List Bool × ℕ)) : Option ℕ :=
  let measuredPhases := counts.map fun oc => ((bitsToNat oc.1, 2 ^ c), oc.2)
  let sorted := sortDesc measuredPhases
  tryPhases a n (sorted.take 5)

/-- The period extractor as the specification words it: convert every
bitstring key to the phase `integer / 2^c`, rank phases by descending
observed count, map each of the top 5 to the denominator of its
continued-fraction convergent with denominator bounded by `n`, and return
the first denominator that is even, has `a^(r/2) mod n ≠ n − 1` and
satisfies `a^r mod n = 1`; otherwise no period is found. -/
def findPeriodSpecC2 (a n c : ℕ) (counts : List (List Bool × ℕ)) : Option ℕ :=
  let phases := counts.map fun oc => ((bitsToNat oc.1, 2 ^ c), oc.2)
  let ranked := sortDesc phases
  let top := (ranked.take 5).map fun pc => (limitDenominator pc.1.1 pc.1.2 n).2
  top.find? fun r => r % 2 == 0 && a ^ (r / 2) % n != n - 1 && a ^ r % n == 1

/-- Result type of `shor_algorithm`: the source returns either a pair of
factors or a failure-message string. -/
inductive ShorResult
  | factors (p q : ℕ)
  | failure (msg : String)
  deriving DecidableEq, Repr

/-- Model of `shor_algorithm(N)` (source lines 106–138).  The randomly chosen base
`a = random.randint(2, N-1)` is an injected argument, and the histogram the
quantum backend returns inside `find_period` is passed through.  The even
and non-coprime shortcuts return factor pairs at once; otherwise the circuit
is constructed (a `ValueError` from an inadmissible base propagates as
`Except.error`), the period is extracted from the measurement histogram with
the source's default of 8 counting qubits, and the period is validated
before the factors `gcd(a^(r/2) ∓ 1, N)` are returned.  Algorithmic failures
are returned as `ShorResult.failure` values, never as `Except.error`. -/
def shorAlgorithm (N a : ℕ) (counts : List (List Bool × ℕ)) : Except String ShorResult :=
  if N % 2 == 0 then .ok (.factors 2 (N / 2))
  else
    let factor := Nat.gcd a N
    if 1 < factor then .ok (.factors factor (N / factor))
    else
      match createShorsCircuit a N 8 with
      | .error e => .error e
      | .ok _ =>
        match findPeriod a N 8 counts with
        | none => .ok (.failure "Failed to find period, try again.")
        | some r =>
          if r % 2 != 0 then .ok (.failure "r is odd, try again with a different a.")
          else if a ^ (r / 2) % N == N - 1 then
            .ok (.failure "a^(r/2) mod N = -1, try again with a different a.")
          else .ok (.factors (Nat.gcd (a ^ (r / 2) - 1) N) (Nat.gcd (a ^ (r / 2) + 1) N))

/-- An idealised 8-bit histogram peaked at the single readout `01000000`
(decimal 64, phase 1/4), used to exercise the period extractor at
`a = 7`, `N = 15`. -/
def countsQuarter : List (List Bool × ℕ) :=
  [([false, true, false, false, false, false, false, false], 1)]

/-- Claim C1 (code bug evaluation): the oracle circuit for base `a = 2`,
power `1` maps the work-register basis state `|1⟩` to `|8⟩`, while
`(2^1 · 1) mod 15 = 2`; the circuit multiplies by `2⁻¹ mod 15 = 8`, not by
`2`, because the swap sequences for bases `{2, 13}` and `{7, 8}` are
interchanged relative to the permutation `x ↦ a·x mod 15` that the
function's docstring and the specification describe. -/
theorem c_amod15_multiplies_by_inverse :
    (c_amod15 2 1).map (fun U => applyGates U 1) = .ok 8 ∧
      (2 ^ 1 * 1) % 15 = 2 ∧ (8 : ℕ) ≠ 2 :=
  ⟨rfl, rfl, by decide⟩

/-- A fold that appends one gate per element emits the mapped list. -/
lemma foldl_emit (f : ℕ → Gate) (l : List ℕ) :
    ∀ init : List Gate, l.foldl (fun g q => g ++ [f q]) init = init ++ l.map f := by
  induction l with
  | nil => simp
  | cons q l ih => intro init; simp [ih]

/-- A fold whose step appends a block of gates per element emits the
concatenation of the blocks. -/
lemma foldl_blocks (F : List Gate → ℕ → List Gate) (B : ℕ → List Gate)
    (hF : ∀ g j, F g j = g ++ B j) (l : List ℕ) :
    ∀ init : List Gate, l.foldl F init = init ++ l.flatMap B := by
  induction l with
  | nil => simp
  | cons j l ih => intro init; simp [hF, ih]

/-- The imperative construction of `qft_dagger` emits exactly the gate
sequence described by the specification. -/
lemma qftDagger_spec_form (n : ℕ) : qftDagger n = qftDaggerSpec n := by
  have hswap : ∀ q, n - q - 1 = n - 1 - q := by
    intro q; omega
  simp only [qftDagger, qftDaggerSpec]
  rw [foldl_emit (fun q => Gate.swap q (n - q - 1)) (List.range (n / 2))]
  rw [foldl_blocks _ (fun j => ((List.range j).map fun m => Gate.cp (j - m) m j) ++ [Gate.h j])
    (fun g j => by rw [foldl_emit (fun m => Gate.cp (j - m) m j) (List.range j) g]; simp)]
  simp [hswap]

/-- Claim C4: for every register size `n`, `qft_dagger(n)` consists of, in
order, swaps of qubit `i` with qubit `n−1−i` for every `i < n/2`, then for
each qubit `j` ascending from 0, controlled-phase rotations of angle
`−π/2^(j−m)` with control `m` and target `j` for every `m < j` with `m`
ascending, followed by a Hadamard on qubit `j`. -/
theorem qftDagger_structure (n : ℕ) : qftDagger n = qftDaggerSpec n :=
  qftDagger_spec_form n

/-- Claim C6: `c_amod15` fails with the unsupported-base error for every
base outside `{2, 4, 7, 8, 11, 13}` and every power, before constructing any
circuit, and succeeds (returning the constructed circuit, never that error)
for every base inside the set. -/
theorem c_amod15_base_validation (a power : ℕ) :
    (a ∉ validBases → c_amod15 a power = .error "a must be 2, 4, 7, 8, 11 or 13") ∧
    (a ∈ validBases → c_amod15 a power = .ok (amod15Gates a power)) := by
  constructor <;> intro ha <;> simp [c_amod15, ha]

/-- Witness for claim C6 at the concrete bases `a = 3` (rejected) and
`a = 7` (accepted), both at power 1. -/
theorem c_amod15_base_validation_witness :
    c_amod15 3 1 = .error "a must be 2, 4, 7, 8, 11 or 13" ∧
      c_amod15 7 1 = .ok (amod15Gates 7 1) :=
  ⟨(c_amod15_base_validation 3 1).1 (by decide),
   (c_amod15_base_validation 7 1).2 (by decide)⟩

/-- Folding the controlled-oracle step over any list leaves a construction
error unchanged. -/
lemma foldl_applyControlledU_error (a c : ℕ) (e : String) (l : List ℕ) :
    l.foldl (applyControlledU a c) (.error e) = .error e := by
  induction l with
  | nil => rfl
  | cons q l ih => simpa [applyControlledU, Except.bind] using ih

/-- For an admissible base the controlled-oracle fold emits one
`cU` block per counting qubit, with power `2^(c-q-1)` for qubit `q`. -/
lemma foldl_applyControlledU_ok (a c : ℕ) (ha : a ∈ validBases) (l : List ℕ) :
    ∀ init : List Gate,
      l.foldl (applyControlledU a c) (.ok init) =
        .ok (init ++ l.map fun q =>
          Gate.cU a (2 ^ (c - q - 1)) q [c, c + 1, c + 2, c + 3]) := by
  induction l with
  | nil => intro init; simp
  | cons q l ih =>
    intro init
    have hc : c_amod15 a (2 ^ (c - q - 1)) = .ok (amod15Gates a (2 ^ (c - q - 1))) := by
      simp [c_amod15, ha]
    simp [List.foldl_cons, applyControlledU, hc, Except.bind, Except.map, ih]

/-- For an inadmissible base the first controlled-oracle step raises the
unsupported-base error, which then propagates. -/
lemma foldl_applyControlledU_bad (a c : ℕ) (ha : a ∉ validBases) (q : ℕ) (l : List ℕ)
    (init : List Gate) :
    (q :: l).foldl (applyControlledU a c) (.ok init) =
      .error "a must be 2, 4, 7, 8, 11 or 13" := by
  have hc : c_amod15 a (2 ^ (c - q - 1)) = .error "a must be 2, 4, 7, 8, 11 or 13" := by
    simp [c_amod15, ha]
  simp [List.foldl_cons, applyControlledU, hc, Except.bind, Except.map,
    foldl_applyControlledU_error]

/-- Explicit gate sequence of `create_shors_circuit` for an admissible
base. -/
lemma createShorsCircuit_ok (a n c : ℕ) (ha : a ∈ validBases) :
    createShorsCircuit a n c =
      .ok ((List.range c).map Gate.h ++ [Gate.x c]
          ++ ((List.range c).map fun q => Gate.cU a (2 ^ (c - q - 1)) q [c, c + 1, c + 2, c + 3])
          ++ qftDagger c
          ++ ((List.range c).map fun q => Gate.measure q q)) := by
  simp only [createShorsCircuit]
  rw [foldl_emit Gate.h (List.range c) [], foldl_applyControlledU_ok a c ha]
  simp [Except.map, foldl_emit (fun q => Gate.measure q q) (List.range c)]

/-- Every gate list a successful construction returns has the explicit
form: Hadamard layer, work-register initialisation, controlled oracles,
inverse transform, final measurements. -/
lemma createShorsCircuit_ok_form (a n c : ℕ) (g : List Gate)
    (h : createShorsCircuit a n c = .ok g) :
    g = (List.range c).map Gate.h ++ [Gate.x c]
        ++ ((List.range c).map fun q => Gate.cU a (2 ^ (c - q - 1)) q [c, c + 1, c + 2, c + 3])
        ++ qftDagger c
        ++ ((List.range c).map fun q => Gate.measure q q) := by
  by_cases ha : a ∈ validBases
  · rw [createShorsCircuit_ok a n c ha] at h
    exact (Except.ok.injEq _ _ ▸ h).symm
  · cases hr : List.range c with
    | nil =>
      have hc0 : c = 0 := List.range_eq_nil.mp hr
      subst hc0
      simp only [createShorsCircuit, List.range_zero, List.foldl_nil, List.nil_append,
        Except.map] at h
      simpa [qftDagger] using h.symm
    | cons q l =>
      rw [createShorsCircuit] at h
      rw [hr, foldl_applyControlledU_bad a c ha] at h
      simp [Except.map] at h

/-- The only construction error `create_shors_circuit` can produce is the
unsupported-base message raised by `c_amod15`. -/
lemma createShorsCircuit_error (a n c : ℕ) (e : String)
    (h : createShorsCircuit a n c = .error e) :
    e = "a must be 2, 4, 7, 8, 11 or 13" := by
  by_cases ha : a ∈ validBases
  · rw [createShorsCircuit_ok a n c ha] at h
    cases h
  · cases hr : List.range c with
    | nil =>
      rw [createShorsCircuit] at h
      rw [hr] at h
      simp [Except.map] at h
    | cons q l =>
      rw [createShorsCircuit] at h
      rw [hr, foldl_applyControlledU_bad a c ha] at h
      simpa [Except.map] using h.symm

/-- No gate of the inverse transform is a controlled oracle, a measurement
or a reset. -/
lemma qftDagger_gate_kinds (n : ℕ) (g : Gate) (hg : g ∈ qftDagger n) :
    isCU g = false ∧ isMeasure g = false ∧ isReset g = false := by
  rw [qftDagger_spec_form, qftDaggerSpec] at hg
  simp only [List.mem_append, List.mem_flatMap, List.mem_map] at hg
  rcases hg with ⟨i, _, rfl⟩ | ⟨j, _, hg⟩
  · exact ⟨rfl, rfl, rfl⟩
  · rcases hg with ⟨m, _, rfl⟩ | hm
    · exact ⟨rfl, rfl, rfl⟩
    · rcases List.mem_singleton.mp hm with rfl
      exact ⟨rfl, rfl, rfl⟩

/-- Filtering a mapped gate list by a predicate false on every image gives
the empty list. -/
lemma filter_map_false {p : Gate → Bool} (f : ℕ → Gate) (hf : ∀ q, p (f q) = false)
    (l : List ℕ) : (l.map f).filter p = [] := by
  induction l <;> simp [*]

/-- Filtering a mapped gate list by a predicate true on every image keeps
the whole list. -/
lemma filter_map_true {p : Gate → Bool} (f : ℕ → Gate) (hf : ∀ q, p (f q) = true)
    (l : List ℕ) : (l.map f).filter p = l.map f := by
  induction l <;> simp [*]

/-- Filtering by a predicate false on every member gives the empty list. -/
lemma filter_of_false {p : Gate → Bool} (l : List Gate) (hl : ∀ g ∈ l, p g = false) :
    l.filter p = [] := by
  induction l with
  | nil => rfl
  | cons g l ih =>
    have hg := hl g (List.mem_cons_self g l)
    simp [hg, ih fun g' hg' => hl g' (List.mem_cons_of_mem g hg')]

/-- Claim C9: in every circuit built by `create_shors_circuit`, the
controlled oracle applications are exactly one per counting qubit `q`, with
power `2^(c−q−1)`, control `q` and the four work-register qubits as targets;
no gate is a reset; and the measurements are exactly the final block
measuring counting qubit `q` into classical bit `q` for `q < c` — in
particular no work-register qubit (index `≥ c`) is ever measured or reset
anywhere in the circuit. -/
theorem createShorsCircuit_invariants (a n c : ℕ) (g : List Gate)
    (h : createShorsCircuit a n c = .ok g) :
    g.filter isCU =
        ((List.range c).map fun q => Gate.cU a (2 ^ (c - q - 1)) q [c, c + 1, c + 2, c + 3]) ∧
      (∀ gate ∈ g, isReset gate = false) ∧
      ∃ body, (∀ gate ∈ body, isMeasure gate = false) ∧
        g = body ++ ((List.range c).map fun q => Gate.measure q q) := by
  have hform := createShorsCircuit_ok_form a n c g h
  subst hform
  refine ⟨?_, ?_, ?_⟩
  · simp only [List.filter_append]
    rw [filter_map_false Gate.h (fun _ => rfl),
      filter_map_false (fun q => Gate.measure q q) (fun _ => rfl),
      filter_map_true (fun q => Gate.cU a (2 ^ (c - q - 1)) q [c, c + 1, c + 2, c + 3])
        (fun _ => rfl),
      filter_of_false (qftDagger c) (fun g hg => (qftDagger_gate_kinds c g hg).1)]
    simp [show isCU (Gate.x c) = false from rfl]
  · intro gate hg
    simp only [List.append_assoc, List.mem_append, List.mem_map, List.mem_singleton] at hg
    rcases hg with ⟨q, _, rfl⟩ | rfl | ⟨q, _, rfl⟩ | hq | ⟨q, _, rfl⟩
    · rfl
    · rfl
    · rfl
    · exact (qftDagger_gate_kinds c gate hq).2.2
    · rfl
  · refine ⟨(List.range c).map Gate.h ++ [Gate.x c]
      ++ ((List.range c).map fun q => Gate.cU a (2 ^ (c - q - 1)) q [c, c + 1, c + 2, c + 3])
      ++ qftDagger c, ?_, by simp⟩
    intro gate hg
    simp only [List.append_assoc, List.mem_append, List.mem_map, List.mem_singleton] at hg
    rcases hg with ⟨q, _, rfl⟩ | rfl | ⟨q, _, rfl⟩ | hq
    · rfl
    · rfl
    · rfl
    · exact (qftDagger_gate_kinds c gate hq).2.1

/-- Witness for claim C9: the concrete circuit for base 7, modulus 15 and
the default 8 counting qubits. -/
theorem createShorsCircuit_invariants_witness :
    (gatesOf (createShorsCircuit 7 15 8)).filter isCU =
        ((List.range 8).map fun q => Gate.cU 7 (2 ^ (8 - q - 1)) q [8, 9, 10, 11]) ∧
      (∀ gate ∈ gatesOf (createShorsCircuit 7 15 8), isReset gate = false) ∧
      ∃ body, (∀ gate ∈ body, isMeasure gate = false) ∧
        gatesOf (createShorsCircuit 7 15 8) =
          body ++ ((List.range 8).map fun q => Gate.measure q q) :=
  createShorsCircuit_invariants 7 15 8 (gatesOf (createShorsCircuit 7 15 8)) rfl

/-- The candidate loop of `find_period` is the first-match search over the
candidates' denominators. -/
lemma tryPhases_eq_find (a n : ℕ) :
    ∀ l : List ((ℕ × ℕ) × ℕ),
      tryPhases a n l =
        (l.map fun pc => (limitDenominator pc.1.1 pc.1.2 n).2).find?
          fun r => r % 2 == 0 && a ^ (r / 2) % n != n - 1 && a ^ r % n == 1 := by
  intro l
  induction l with
  | nil => rfl
  | cons pc rest ih =>
    simp only [tryPhases, List.map_cons, List.find?_cons]
    split
    · next hb => simp [List.find?_cons, hb]
    · next hb => simp [List.find?_cons, hb, ih]

/-- Any period the candidate loop returns passed its three checks: it is
even, `a^(r/2) mod n ≠ n − 1`, and `a^r mod n = 1`. -/
lemma tryPhases_some (a n : ℕ) :
    ∀ (l : List ((ℕ × ℕ) × ℕ)) (r : ℕ), tryPhases a n l = some r →
      r % 2 = 0 ∧ a ^ (r / 2) % n ≠ n - 1 ∧ a ^ r % n = 1 := by
  intro l
  induction l with
  | nil => intro r h; simp [tryPhases] at h
  | cons pc rest ih =>
    intro r h
    simp only [tryPhases] at h
    split at h
    · next hb =>
      cases h
      simp only [Bool.and_eq_true, beq_iff_eq, bne_iff_ne, ne_eq] at hb
      exact ⟨hb.1.1, hb.1.2, hb.2⟩
    · exact ih r h

/-- Any period `find_period` returns passed the acceptance filter. -/
lemma findPeriod_some (a n c : ℕ) (counts : List (List Bool × ℕ)) (r : ℕ)
    (h : findPeriod a n c counts = some r) :
    r % 2 = 0 ∧ a ^ (r / 2) % n ≠ n - 1 ∧ a ^ r % n = 1 :=
  tryPhases_some a n _ r h

/-- Claim C2: for every histogram of bitstring counts, base `a` and modulus
`n ≥ 1`, `find_period` converts each bitstring key to the phase
`integer/2^c`, ranks phases by descending observed count, and among the top
5 returns the first denominator `r` of the continued-fraction convergent of
the phase with denominator bounded by `n` such that `r` is even,
`a^(r/2) mod n ≠ n−1` and `a^r mod n = 1`; if no such `r` exists among the
top 5 it returns `none`, with no internal retry.  (The bound `n ≥ 1` scopes
the claim to usable moduli: Python's `limit_denominator` rejects a bound
below 1.) -/
theorem findPeriod_matches_spec (a n c : ℕ) (counts : List (List Bool × ℕ))
    (hn : 1 ≤ n) :
    findPeriod a n c counts = findPeriodSpecC2 a n c counts := by
  simp only [findPeriod, findPeriodSpecC2]
  rw [tryPhases_eq_find]

/-- Witness for claim C2 at base 7, modulus 15, 8 counting qubits and the
idealised quarter-phase histogram. -/
theorem findPeriod_matches_spec_witness :
    (1 ≤ 15) ∧
      findPeriod 7 15 8 countsQuarter = findPeriodSpecC2 7 15 8 countsQuarter :=
  ⟨by decide, findPeriod_matches_spec 7 15 8 countsQuarter (by decide)⟩

/-- Claim C7: for every even `N`, `shor_algorithm` returns the factor pair
`(2, N/2)` immediately; the result does not depend on the chosen base or on
any measurement histogram, so the quantum period-finding step is not
invoked. -/
theorem shorAlgorithm_even_shortcut (N a : ℕ) (counts : List (List Bool × ℕ))
    (h : N % 2 = 0) :
    shorAlgorithm N a counts = .ok (.factors 2 (N / 2)) := by
  simp [shorAlgorithm, h]

/-- Witness for claim C7: `factor(14)` returns `(2, 7)`. -/
theorem shorAlgorithm_even_shortcut_witness :
    shorAlgorithm 14 5 [] = .ok (.factors 2 7) :=
  shorAlgorithm_even_shortcut 14 5 [] rfl

/-- Claim C8: for every odd `N`, if the chosen base `a` has
`gcd(a, N) > 1`, `shor_algorithm` returns the factor pair
`(gcd(a, N), N / gcd(a, N))` immediately; the result does not depend on any
measurement histogram, so the quantum period-finding step is not invoked. -/
theorem shorAlgorithm_coprime_shortcut (N a : ℕ) (counts : List (List Bool × ℕ))
    (h1 : N % 2 ≠ 0) (h2 : 1 < Nat.gcd a N) :
    shorAlgorithm N a counts = .ok (.factors (Nat.gcd a N) (N / Nat.gcd a N)) := by
  have hb : (N % 2 == 0) = false := by simp [h1]
  simp [shorAlgorithm, hb, h2]

/-- Witness for claim C8: `N = 21` with base `a = 3` returns `(3, 7)`. -/
theorem shorAlgorithm_coprime_shortcut_witness :
    shorAlgorithm 21 3 [] = .ok (.factors 3 7) :=
  shorAlgorithm_coprime_shortcut 21 3 [] (by decide) (by decide)

/-- Claim C3: when the orchestrator reaches the factor-computation step —
`N` odd, base coprime to `N`, admissible for the oracle, and a period `r`
returned by the extractor — it returns the pair
`(gcd(a^(r/2) − 1, N), gcd(a^(r/2) + 1, N))`. -/
theorem shorAlgorithm_computes_factors (N a : ℕ) (counts : List (List Bool × ℕ)) (r : ℕ)
    (h1 : N % 2 ≠ 0) (h2 : Nat.gcd a N = 1) (ha : a ∈ validBases)
    (hp : findPeriod a N 8 counts = some r) :
    shorAlgorithm N a counts =
      .ok (.factors (Nat.gcd (a ^ (r / 2) - 1) N) (Nat.gcd (a ^ (r / 2) + 1) N)) := by
  obtain ⟨hr2, hrt, -⟩ := findPeriod_some a N 8 counts r hp
  have hb : (N % 2 == 0) = false := by simp [h1]
  have hgcd : ¬ 1 < Nat.gcd a N := by rw [h2]; omega
  have hcc := createShorsCircuit_ok a N 8 ha
  have hro : (r % 2 != 0) = false := by simp [hr2]
  have hrt' : (a ^ (r / 2) % N == N - 1) = false := by simp [hrt]
  simp [shorAlgorithm, hb, hgcd, hcc, hp, hro, hrt']

/-- Witness for claim C3: for `N = 15`, `a = 7` and the idealised histogram
giving period `r = 4`, the factors `3` and `5` are returned. -/
theorem shorAlgorithm_computes_factors_witness :
    shorAlgorithm 15 7 countsQuarter = .ok (.factors 3 5) :=
  shorAlgorithm_computes_factors 15 7 countsQuarter 4
    (by decide) (by decide) (by decide) (by decide)

/-- Claim C5: every algorithmic failure of `shor_algorithm` is returned as
one of the three tagged failure values (returned strings, realising the
specification's FailureReason tags "no period found", "odd period" and
"trivial period from a^(r/2) ≡ -1"), while construction errors surface on
the separate error channel (a raised `ValueError`, modelled as
`Except.error`), carrying only the unsupported-base message. -/
theorem shorAlgorithm_failure_values (N a : ℕ) (counts : List (List Bool × ℕ))
    (s : String) :
    (shorAlgorithm N a counts = .ok (.failure s) →
        s = "Failed to find period, try again." ∨
        s = "r is odd, try again with a different a." ∨
        s = "a^(r/2) mod N = -1, try again with a different a.") ∧
    (shorAlgorithm N a counts = .error s →
        s = "a must be 2, 4, 7, 8, 11 or 13") := by
  constructor
  · intro h
    simp only [shorAlgorithm] at h
    split at h
    · simp at h
    · split at h
      · simp at h
      · split at h
        · simp at h
        · split at h
          · simp at h
            tauto
          · split at h
            · simp at h
              tauto
            · split at h
              · simp at h
                tauto
              · simp at h
  · intro h
    simp only [shorAlgorithm] at h
    split at h
    · simp at h
    · split at h
      · simp at h
      · split at h
        · next e heq =>
          simp only [Except.error.injEq] at h
          rw [← h]
          exact createShorsCircuit_error a N 8 e heq
        · split at h
          · simp at h
          · split at h
            · simp at h
            · split at h
              · simp at h
              · simp at h

/-- Witness for claim C5: `N = 15`, `a = 7` with an empty histogram yields
the no-period failure value, and `N = 15`, `a = 14` (coprime but not an
admissible oracle base) yields the construction error. -/
theorem shorAlgorithm_failure_values_witness :
    ("Failed to find period, try again." = "Failed to find period, try again." ∨
        "Failed to find period, try again." = "r is odd, try again with a different a." ∨
        "Failed to find period, try again." =
          "a^(r/2) mod N = -1, try again with a different a.") ∧
      "a must be 2, 4, 7, 8, 11 or 13" = "a must be 2, 4, 7, 8, 11 or 13" :=
  ⟨(shorAlgorithm_failure_values 15 7 [] "Failed to find period, try again.").1 rfl,
   (shorAlgorithm_failure_values 15 14 [] "a must be 2, 4, 7, 8, 11 or 13").2 rfl⟩

/-- Claim C10: any period `find_period` returns is already even and
nontrivial by the extractor's own acceptance filter, so the orchestrator's
"r is odd" and "a^(r/2) mod N = -1" branches are unreachable: the only
algorithmic failure value `shor_algorithm` can return is the
no-period-found one. -/
theorem findPeriod_filters_preclude_failures (a n c : ℕ)
    (counts : List (List Bool × ℕ)) (r N : ℕ) (s : String) :
    (findPeriod a n c counts = some r → r % 2 = 0 ∧ a ^ (r / 2) % n ≠ n - 1) ∧
    (shorAlgorithm N a counts = .ok (.failure s) →
        s = "Failed to find period, try again.") := by
  constructor
  · intro h
    exact ⟨(findPeriod_some a n c counts r h).1, (findPeriod_some a n c counts r h).2.1⟩
  · intro h
    simp only [shorAlgorithm] at h
    split at h
    · simp at h
    · split at h
      · simp at h
      · split at h
        · simp at h
        · split at h
          · simp at h
            exact h.symm
          · next r' heq =>
            obtain ⟨hr2, hrt, -⟩ := findPeriod_some a N 8 counts r' heq
            split at h
            · next hodd =>
              rw [hr2] at hodd
              simp at hodd
            · split at h
              · next htriv =>
                rw [beq_iff_eq] at htriv
                exact absurd htriv hrt
              · simp at h

/-- Witness for claim C10: the idealised quarter-phase histogram returns
period 4, which is even and nontrivial, and the empty histogram produces
the no-period failure value. -/
theorem findPeriod_filters_preclude_failures_witness :
    ((4 : ℕ) % 2 = 0 ∧ 7 ^ (4 / 2) % 15 ≠ 15 - 1) ∧
      "Failed to find period, try again." = "Failed to find period, try again." :=
  ⟨(findPeriod_filters_preclude_failures 7 15 8 countsQuarter 4 15
      "Failed to find period, try again.").1 (by decide),
   (findPeriod_filters_preclude_failures 7 15 8 [] 4 15
      "Failed to find period, try again.").2 rfl⟩

end Shors
